import Mathlib

/-!
Ecoji table generator (`v2/gen.go`)

A shallow embedding of the generator that prepares the Ecoji alphabet tables:
the reverse-map construction of `main` (two loops over the symbol lists with
the ordinal consistency check) and the `revEmojis` map literal of the emitted
file, with its reserved padding symbols.

Go maps are modelled as association lists with unique keys: reading a key is
`GoMap.get?`, the assignment `m[k] = v` is `GoMap.set`.  A Go `panic` is the
`Except.error` result carrying the panic message.
-/

namespace Ecoji

/-! ## Go maps -/

/-- A Go `map[κ]ν`, as the list of its key/value pairs. -/
abbrev GoMap (κ ν : Type) := List (κ × ν)

namespace GoMap

variable {κ ν : Type} [DecidableEq κ]

/-- The read `v, exists := m[k]`: `none` when the key is absent. -/
def get? : GoMap κ ν → κ → Option ν
  | [], _ => none
  | (k', v) :: rest, k => if k' = k then some v else get? rest k

/-- The assignment `m[k] = v`: replaces the value of a present key, adds a new
pair otherwise. -/
def set : GoMap κ ν → κ → ν → GoMap κ ν
  | [], k, v => [(k, v)]
  | (k', v') :: rest, k, v =>
    if k' = k then (k, v) :: rest else (k', v') :: set rest k v

/-- The keys of the map. -/
def keys (m : GoMap κ ν) : List κ := m.map Prod.fst

end GoMap

/-! ## The generator's `main` -/

/-- The Go struct `RuneInfo`. Ordinals are slice indices, hence natural numbers. -/
structure RuneInfo where
  Ordinal : Nat
  Version : Nat
deriving DecidableEq

/-- The Go conversion `string(i)` of an integer: the one-character string of the
code point `i`, or U+FFFD when `i` is not a valid code point. -/
def goStringOfInt (i : Nat) : String :=
  if Nat.isValidChar i then String.singleton (Char.ofNat i)
  else String.singleton (Char.ofNat 0xFFFD)

/-- The message of the panic raised by `main` on line 38. -/
def ordinalMismatch (i : Nat) (r : String) : String :=
  "Ordinal mismatch " ++ goStringOfInt i ++ " " ++ r

/-- The first loop of `main` (lines 26-31), started at index `i`:
`for i, r := range v1Lines { revMap[r] = RuneInfo{Ordinal: i, Version: 1} }`. -/
def loopV1 : Nat → List String → GoMap String RuneInfo → GoMap String RuneInfo
  | _, [], revMap => revMap
  | i, r :: rest, revMap => loopV1 (i + 1) rest (revMap.set r ⟨i, 1⟩)

/-- The second loop of `main` (lines 33-50), started at index `i`: a symbol
already in the map must carry the ordinal `i`, otherwise the generator panics;
if it does, its version becomes 3; a new symbol is stored with version 2. -/
def loopV2 : Nat → List String → GoMap String RuneInfo →
    Except String (GoMap String RuneInfo)
  | _, [], revMap => .ok revMap
  | i, r :: rest, revMap =>
    match revMap.get? r with
    | some rInfo =>
      if rInfo.Ordinal ≠ i then .error (ordinalMismatch i r)
      else loopV2 (i + 1) rest (revMap.set r { rInfo with Version := 3 })
    | none => loopV2 (i + 1) rest (revMap.set r ⟨i, 2⟩)

/-- The reverse-map construction of `main` (lines 24-50): an empty map, the
loop over `v1Lines`, then the loop over `v2Lines`. -/
def mainRevMap (v1Lines v2Lines : List String) :
    Except String (GoMap String RuneInfo) :=
  loopV2 0 v2Lines (loopV1 0 v1Lines [])

/-- The Go struct `document` handed to the template. -/
structure document where
  User : String
  Timestamp : String
  EmojisV1 : List String
  EmojisV2 : List String
  RevMap : GoMap String RuneInfo

/-- The function `main` up to the template execution: `envUser` is the value of
the environment variable `USER`, `timestamp` the formatted clock, and the two
lists are the results of `getLines`. -/
def main (envUser timestamp : String) (v1Lines v2Lines : List String) :
    Except String document :=
  let user := if envUser = "" then "robots" else envUser
  match mainRevMap v1Lines v2Lines with
  | .error e => .error e
  | .ok revMap => .ok ⟨user, timestamp, v1Lines, v2Lines, revMap⟩

/-! ## The emitted file: padding tables and `revEmojis` -/

/-- The constant `padding` of the emitted file: the fill symbol. -/
def padding : Nat := 0x2615

/-- The array `paddingLastV1` of the emitted file. -/
def paddingLastV1 : Fin 4 → Nat := ![0x269C, 0x1F3CD, 0x1F4D1, 0x1F64B]

/-- The array `paddingLastV2` of the emitted file. -/
def paddingLastV2 : Fin 4 → Nat := ![0x1F977, 0x1F6FC, 0x1F4D1, 0x1F64B]

/-- The constant `ev1` of type `ecojiver`. -/
def ev1 : Nat := 1

/-- The constant `ev2` of type `ecojiver`. -/
def ev2 : Nat := 2

/-- The constant `evAll` of type `ecojiver`. -/
def evAll : Nat := 3

/-- The constant `padNone` of type `paddingType`. -/
def padNone : Int := -1

/-- The constant `padFill` of type `paddingType`. -/
def padFill : Int := 1

/-- The constant `padLast` of type `paddingType`. -/
def padLast : Int := 2

/-- The struct `emojiInfo` of the emitted file. -/
structure emojiInfo where
  ordinal : Nat
  version : Nat
  padding : Int
deriving DecidableEq

/-- The pairs of `.RevMap` in the order in which the template's `range` visits
them: by increasing key, the keys compared character by character (the order of
Go strings, whose bytes are UTF-8). -/
def rangeRevMap (RevMap : GoMap String RuneInfo) : List (String × RuneInfo) :=
  RevMap.insertionSort (fun a b => a.1.data ≤ b.1.data)

/-- The key/value elements of the `revEmojis` map literal, in the order of the
text: one element `0x<r>: { ordinal, version, padNone }` for each pair of
`.RevMap`, then the seven elements of the reserved symbols. `runeLit r` is the
code point that the literal `0x<r>` denotes. -/
def revEmojisElements (runeLit : String → Nat) (doc : document) :
    List (Nat × emojiInfo) :=
  (rangeRevMap doc.RevMap).map
      (fun e => (runeLit e.1, ⟨e.2.Ordinal, e.2.Version, padNone⟩)) ++
    [ (padding, ⟨0, evAll, padFill⟩),
      (paddingLastV1 0, ⟨0, ev1, padLast⟩),
      (paddingLastV1 1, ⟨1 <<< 8, ev1, padLast⟩),
      (paddingLastV1 2, ⟨2 <<< 8, evAll, padLast⟩),
      (paddingLastV1 3, ⟨3 <<< 8, evAll, padLast⟩),
      (paddingLastV2 0, ⟨0, ev2, padLast⟩),
      (paddingLastV2 1, ⟨1 <<< 8, ev2, padLast⟩) ]

/-- The map `revEmojis` of the emitted file: the elements of the literal stored
one after the other, so that a later element with the same key replaces an
earlier one. (The Go compiler rejects a literal in which two constant keys are
equal; the elements of the data part and of `padding` have constant keys, and
the six marker elements, whose keys are array reads, are stored after them.) -/
def revEmojis (runeLit : String → Nat) (doc : document) : GoMap Nat emojiInfo :=
  (revEmojisElements runeLit doc).foldl (fun m e => m.set e.1 e.2) []

/-- The value of one hexadecimal digit. -/
def hexDigit (c : Char) : Nat :=
  if c.isDigit then c.toNat - 48 else c.toNat - 87

/-- The code point denoted by the literal `0x<r>` when the line `r` is made of
the digits `0`-`9` and `a`-`f`. -/
def hexRune (r : String) : Nat :=
  r.data.foldl (fun n c => 16 * n + hexDigit c) 0

/-! ## Facts about Go maps -/

namespace GoMap

variable {κ ν : Type} [DecidableEq κ]

theorem get?_set (m : GoMap κ ν) (k k' : κ) (v : ν) :
    (m.set k v).get? k' = if k = k' then some v else m.get? k' := by
  induction m with
  | nil => simp [set, get?]
  | cons p rest ih =>
    obtain ⟨a, b⟩ := p
    by_cases hak : a = k
    · subst hak
      by_cases hk : a = k' <;> simp [set, get?, hk]
    · by_cases hk : k = k'
      · subst hk
        simp [set, get?, hak, ih]
      · simp [set, get?, hak, hk, ih]

theorem get?_set_self (m : GoMap κ ν) (k : κ) (v : ν) :
    (m.set k v).get? k = some v := by
  simp [get?_set]

theorem get?_set_ne (m : GoMap κ ν) {k k' : κ} (v : ν) (h : k ≠ k') :
    (m.set k v).get? k' = m.get? k' := by
  simp [get?_set, h]

theorem mem_keys_iff (m : GoMap κ ν) (k : κ) :
    k ∈ m.keys ↔ ∃ v, m.get? k = some v := by
  induction m with
  | nil => simp [keys, get?]
  | cons p rest ih =>
    obtain ⟨a, b⟩ := p
    by_cases hak : a = k
    · subst hak
      simp [keys, get?]
    · have hka : ¬ k = a := fun h => hak h.symm
      simp only [keys, List.map_cons, List.mem_cons, get?, hak, hka, if_false, false_or]
      exact ih

theorem not_mem_keys_iff (m : GoMap κ ν) (k : κ) :
    k ∉ m.keys ↔ m.get? k = none := by
  rw [mem_keys_iff]
  cases m.get? k <;> simp

theorem mem_keys_set (m : GoMap κ ν) (k k' : κ) (v : ν) :
    k' ∈ (m.set k v).keys ↔ k' = k ∨ k' ∈ m.keys := by
  rw [mem_keys_iff, mem_keys_iff, get?_set]
  by_cases h : k = k'
  · subst h
    simp
  · have h' : ¬ k' = k := fun e => h e.symm
    simp [h, h']

theorem nodup_keys_set (m : GoMap κ ν) (k : κ) (v : ν) (h : m.keys.Nodup) :
    (m.set k v).keys.Nodup := by
  induction m with
  | nil => simp [set, keys]
  | cons p rest ih =>
    obtain ⟨a, b⟩ := p
    have hn : a ∉ keys rest ∧ (keys rest).Nodup := by
      simpa [keys] using h
    by_cases hak : a = k
    · subst hak
      simpa [set, keys] using h
    · have hmem : a ∉ (set rest k v).keys := by
        rw [mem_keys_set]
        rintro (h1 | h1)
        · exact hak h1
        · exact hn.1 h1
      have := ih hn.2
      simp only [set, hak, if_false, keys, List.map_cons, List.nodup_cons]
      exact ⟨hmem, this⟩

end GoMap

/-! ## The first loop -/

theorem loopV1_get?_of_not_mem (L : List String) (i : Nat)
    (m : GoMap String RuneInfo) (s : String) (hs : s ∉ L) :
    (loopV1 i L m).get? s = m.get? s := by
  induction L generalizing i m with
  | nil => rfl
  | cons r rest ih =>
    have h1 : r ≠ s := fun e => hs (by simp [e])
    have h2 : s ∉ rest := fun e => hs (by simp [e])
    simp only [loopV1]
    rw [ih _ _ h2, GoMap.get?_set_ne _ _ h1]

theorem loopV1_get?_last (L : List String) (i : Nat)
    (m : GoMap String RuneInfo) (j : Nat) (s : String)
    (hj : L[j]? = some s) (hlast : ∀ k, j < k → L[k]? ≠ some s) :
    (loopV1 i L m).get? s = some ⟨i + j, 1⟩ := by
  induction L generalizing i m j with
  | nil => simp at hj
  | cons r rest ih =>
    simp only [loopV1]
    cases j with
    | zero =>
      have hrs : r = s := by simpa using hj
      subst hrs
      have hnot : r ∉ rest := by
        intro hmem
        obtain ⟨k, hk⟩ := List.mem_iff_getElem?.1 hmem
        exact hlast (k + 1) (Nat.succ_pos k) (by simpa using hk)
      rw [loopV1_get?_of_not_mem _ _ _ _ hnot, GoMap.get?_set_self]
      rfl
    | succ j =>
      have hj' : rest[j]? = some s := by simpa using hj
      have hl' : ∀ k, j < k → rest[k]? ≠ some s := by
        intro k hk
        have := hlast (k + 1) (by omega)
        simpa using this
      rw [ih (i + 1) (m.set r ⟨i, 1⟩) j hj' hl']
      have : i + 1 + j = i + (j + 1) := by omega
      rw [this]

theorem loopV1_get?_of_mem (L : List String) (i : Nat)
    (m : GoMap String RuneInfo) (s : String) (hs : s ∈ L) :
    ∃ o, (loopV1 i L m).get? s = some ⟨o, 1⟩ := by
  induction L generalizing i m with
  | nil => simp at hs
  | cons r rest ih =>
    simp only [loopV1]
    by_cases hmem : s ∈ rest
    · exact ih _ _ hmem
    · have hrs : s = r := by
        rcases List.mem_cons.1 hs with h | h
        · exact h
        · exact absurd h hmem
      subst hrs
      exact ⟨i, by rw [loopV1_get?_of_not_mem _ _ _ _ hmem, GoMap.get?_set_self]⟩

theorem loopV1_nodup_keys (L : List String) (i : Nat)
    (m : GoMap String RuneInfo) (h : m.keys.Nodup) :
    (loopV1 i L m).keys.Nodup := by
  induction L generalizing i m with
  | nil => exact h
  | cons r rest ih => exact ih _ _ (GoMap.nodup_keys_set _ _ _ h)

/-! ## The second loop -/

theorem loopV2_error (L : List String) (i : Nat) (m : GoMap String RuneInfo)
    (e : String) (h : loopV2 i L m = .error e) :
    ∃ n r, e = ordinalMismatch n r := by
  induction L generalizing i m with
  | nil => simp [loopV2] at h
  | cons r rest ih =>
    simp only [loopV2] at h
    split at h
    · split at h
      · exact ⟨i, r, by injection h with h; exact h.symm⟩
      · exact ih _ _ h
    · exact ih _ _ h

/-- One successful turn of the second loop: the value written for `r` carries
the ordinal `i`, any value read for `r` carried it too, and the written version
is 3 for a symbol that was present and 2 for a new one. -/
theorem loopV2_cons_ok {r : String} {rest : List String} {i : Nat}
    {m m' : GoMap String RuneInfo} (h : loopV2 i (r :: rest) m = .ok m') :
    ∃ info : RuneInfo, info.Ordinal = i ∧
      info.Version = (if (m.get? r).isSome then 3 else 2) ∧
      loopV2 (i + 1) rest (m.set r info) = .ok m' := by
  simp only [loopV2] at h
  split at h
  · rename_i rInfo hget
    split at h
    · cases h
    · rename_i hord
      have hord' : rInfo.Ordinal = i := by simpa using hord
      exact ⟨{ rInfo with Version := 3 }, hord', by simp [hget], h⟩
  · rename_i hget
    exact ⟨⟨i, 2⟩, rfl, by simp [hget], h⟩

theorem loopV2_spec (L : List String) (i : Nat) (m m' : GoMap String RuneInfo)
    (h : loopV2 i L m = .ok m') :
    (∀ s, s ∉ L → m'.get? s = m.get? s) ∧
    (∀ s info, m.get? s = some info →
      ∃ info', m'.get? s = some info' ∧ info'.Ordinal = info.Ordinal) ∧
    (∀ j s, L[j]? = some s → ∃ info', m'.get? s = some info' ∧
      info'.Ordinal = i + j ∧
      info'.Version = (if (m.get? s).isSome then 3 else 2)) ∧
    L.Nodup := by
  induction L generalizing i m with
  | nil =>
    simp only [loopV2, Except.ok.injEq] at h
    subst h
    refine ⟨fun _ _ => rfl, fun s info hs => ⟨info, hs, rfl⟩, ?_, List.nodup_nil⟩
    intro j s hj
    simp at hj
  | cons r rest ih =>
    simp only [loopV2] at h
    -- the value written for `r` and the map after this turn
    have hstep : ∃ info : RuneInfo, info.Ordinal = i ∧
        info.Version = (if (m.get? r).isSome then 3 else 2) ∧
        (∀ old, m.get? r = some old → old.Ordinal = i) ∧
        loopV2 (i + 1) rest (m.set r info) = .ok m' := by
      split at h
      · rename_i rInfo hget
        split at h
        · cases h
        · rename_i hord
          have hord' : rInfo.Ordinal = i := by simpa using hord
          refine ⟨{ rInfo with Version := 3 }, hord', by simp [hget], ?_, h⟩
          intro old hold
          rw [hget] at hold
          cases hold
          exact hord'
      · rename_i hget
        refine ⟨⟨i, 2⟩, rfl, by simp [hget], ?_, h⟩
        intro old hold
        rw [hget] at hold
        cases hold
    obtain ⟨info, hord, hver, hold, hrest⟩ := hstep
    obtain ⟨hA, hB, hC, hD⟩ := ih (i + 1) (m.set r info) hrest
    have hself : (m.set r info).get? r = some info := GoMap.get?_set_self _ _ _
    have hnot : r ∉ rest := by
      intro hmem
      obtain ⟨j, hj⟩ := List.mem_iff_getElem?.1 hmem
      obtain ⟨a, ha, hao, _⟩ := hC j r hj
      obtain ⟨b, hb, hbo⟩ := hB r info hself
      rw [ha] at hb
      cases hb
      omega
    refine ⟨?_, ?_, ?_, List.nodup_cons.2 ⟨hnot, hD⟩⟩
    · intro s hs
      have h1 : r ≠ s := fun e => hs (by simp [e])
      have h2 : s ∉ rest := fun e => hs (by simp [e])
      rw [hA s h2, GoMap.get?_set_ne _ _ h1]
    · intro s info0 hs
      by_cases hrs : r = s
      · subst hrs
        obtain ⟨b, hb, hbo⟩ := hB r info hself
        exact ⟨b, hb, by rw [hbo, hord, hold info0 hs]⟩
      · have : (m.set r info).get? s = some info0 := by
          rw [GoMap.get?_set_ne _ _ hrs]
          exact hs
        exact hB s info0 this
    · intro j s hj
      cases j with
      | zero =>
        have hrs : r = s := by simpa using hj
        subst hrs
        refine ⟨info, ?_, by simpa using hord, hver⟩
        rw [hA r hnot]
        exact hself
      | succ j =>
        have hj' : rest[j]? = some s := by simpa using hj
        have hrs : r ≠ s := by
          intro e
          subst e
          exact hnot (List.mem_iff_getElem?.2 ⟨j, hj'⟩)
        obtain ⟨a, ha, hao, hav⟩ := hC j s hj'
        refine ⟨a, ha, by omega, ?_⟩
        rw [hav, GoMap.get?_set_ne _ _ hrs]

theorem loopV2_nodup_keys (L : List String) (i : Nat)
    (m m' : GoMap String RuneInfo) (h : loopV2 i L m = .ok m')
    (hm : m.keys.Nodup) : m'.keys.Nodup := by
  induction L generalizing i m with
  | nil =>
    simp only [loopV2, Except.ok.injEq] at h
    subst h
    exact hm
  | cons r rest ih =>
    obtain ⟨info, _, _, hrest⟩ := loopV2_cons_ok h
    exact ih _ _ hrest (GoMap.nodup_keys_set _ _ _ hm)

theorem loopV2_ok (L : List String) (i : Nat) (m : GoMap String RuneInfo)
    (hL : L.Nodup)
    (hm : ∀ j s info, L[j]? = some s → m.get? s = some info →
      info.Ordinal = i + j) :
    ∃ m', loopV2 i L m = .ok m' := by
  induction L generalizing i m with
  | nil => exact ⟨m, rfl⟩
  | cons r rest ih =>
    obtain ⟨hnot, hrest⟩ := List.nodup_cons.1 hL
    have hnext : ∀ info0 : RuneInfo, ∀ j s info, rest[j]? = some s →
        (m.set r info0).get? s = some info → info.Ordinal = i + 1 + j := by
      intro info0 j s info hj hs
      have hrs : r ≠ s := by
        intro e
        subst e
        exact hnot (List.mem_iff_getElem?.2 ⟨j, hj⟩)
      rw [GoMap.get?_set_ne _ _ hrs] at hs
      have := hm (j + 1) s info (by simpa using hj) hs
      omega
    simp only [loopV2]
    cases hget : m.get? r with
    | none => exact ih _ _ hrest (hnext _)
    | some rInfo =>
      have : rInfo.Ordinal = i := by
        have := hm 0 r rInfo (by simp) hget
        simpa using this
      simp only [this, ne_eq, not_true_eq_false, if_false]
      exact ih _ _ hrest (hnext _)


/-! ## The whole construction -/

theorem main_ok {envUser timestamp : String} {v1Lines v2Lines : List String}
    {doc : document} (h : main envUser timestamp v1Lines v2Lines = .ok doc) :
    mainRevMap v1Lines v2Lines = .ok doc.RevMap := by
  simp only [main] at h
  split at h
  · cases h
  · rename_i revMap hr
    cases h
    exact hr

/-- What a successful construction stores for a symbol, by the lists it is in. -/
theorem mainRevMap_get? {v1Lines v2Lines : List String}
    {m : GoMap String RuneInfo} (h : mainRevMap v1Lines v2Lines = .ok m)
    (s : String) :
    (s ∉ v1Lines → s ∉ v2Lines → m.get? s = none) ∧
    (s ∈ v1Lines → s ∉ v2Lines → ∃ o, m.get? s = some ⟨o, 1⟩) ∧
    (s ∉ v1Lines → s ∈ v2Lines → ∃ o, m.get? s = some ⟨o, 2⟩) ∧
    (s ∈ v1Lines → s ∈ v2Lines → ∃ o, m.get? s = some ⟨o, 3⟩) := by
  obtain ⟨hA, _, hC, _⟩ := loopV2_spec _ _ _ _ h
  refine ⟨?_, ?_, ?_, ?_⟩
  · intro h1 h2
    rw [hA s h2, loopV1_get?_of_not_mem _ _ _ _ h1]
    rfl
  · intro h1 h2
    rw [hA s h2]
    exact loopV1_get?_of_mem _ _ _ _ h1
  · intro h1 h2
    obtain ⟨j, hj⟩ := List.mem_iff_getElem?.1 h2
    obtain ⟨info, hi, _, hv⟩ := hC j s hj
    rw [loopV1_get?_of_not_mem _ _ _ _ h1] at hv
    refine ⟨info.Ordinal, ?_⟩
    rw [hi]
    obtain ⟨o, v⟩ := info
    have : v = 2 := by simpa [GoMap.get?] using hv
    rw [this]
  · intro h1 h2
    obtain ⟨j, hj⟩ := List.mem_iff_getElem?.1 h2
    obtain ⟨info, hi, _, hv⟩ := hC j s hj
    obtain ⟨o1, ho1⟩ := loopV1_get?_of_mem v1Lines 0 [] s h1
    rw [ho1] at hv
    refine ⟨info.Ordinal, ?_⟩
    rw [hi]
    obtain ⟨o, v⟩ := info
    have : v = 3 := by simpa using hv
    rw [this]

theorem mainRevMap_mem_keys {v1Lines v2Lines : List String}
    {m : GoMap String RuneInfo} (h : mainRevMap v1Lines v2Lines = .ok m)
    (s : String) : s ∈ m.keys ↔ s ∈ v1Lines ∨ s ∈ v2Lines := by
  obtain ⟨h0, h1, h2, h3⟩ := mainRevMap_get? h s
  rw [GoMap.mem_keys_iff]
  by_cases a : s ∈ v1Lines <;> by_cases b : s ∈ v2Lines
  · obtain ⟨o, ho⟩ := h3 a b
    simp [a, ho]
  · obtain ⟨o, ho⟩ := h1 a b
    simp [a, ho]
  · obtain ⟨o, ho⟩ := h2 a b
    simp [b, ho]
  · simp [a, b, h0 a b]

theorem mainRevMap_nodup_keys {v1Lines v2Lines : List String}
    {m : GoMap String RuneInfo} (h : mainRevMap v1Lines v2Lines = .ok m) :
    m.keys.Nodup :=
  loopV2_nodup_keys _ _ _ _ h
    (loopV1_nodup_keys _ _ _ (by simp [GoMap.keys]))

/-! ## The map literal -/

theorem mem_keys_foldl_set (es : List (Nat × emojiInfo))
    (m : GoMap Nat emojiInfo) (c : Nat) :
    c ∈ (es.foldl (fun m e => m.set e.1 e.2) m).keys ↔
      c ∈ m.keys ∨ ∃ e ∈ es, e.1 = c := by
  induction es generalizing m with
  | nil => simp
  | cons e rest ih =>
    simp only [List.foldl_cons, ih, GoMap.mem_keys_set, List.mem_cons,
      exists_eq_or_imp]
    constructor
    · rintro ((h | h) | h)
      · exact Or.inr (Or.inl h.symm)
      · exact Or.inl h
      · exact Or.inr (Or.inr h)
    · rintro (h | h | h)
      · exact Or.inl (Or.inr h)
      · exact Or.inl (Or.inl h.symm)
      · exact Or.inr h

/-- The seven elements of the reserved symbols come last in the literal, so
their values are the ones found in the map, whatever the data part holds. -/
theorem revEmojis_get?_reserved (runeLit : String → Nat) (doc : document) :
    (revEmojis runeLit doc).get? 0x2615 = some ⟨0, 3, 1⟩ ∧
    (revEmojis runeLit doc).get? 0x269C = some ⟨0, 1, 2⟩ ∧
    (revEmojis runeLit doc).get? 0x1F3CD = some ⟨256, 1, 2⟩ ∧
    (revEmojis runeLit doc).get? 0x1F4D1 = some ⟨512, 3, 2⟩ ∧
    (revEmojis runeLit doc).get? 0x1F64B = some ⟨768, 3, 2⟩ ∧
    (revEmojis runeLit doc).get? 0x1F977 = some ⟨0, 2, 2⟩ ∧
    (revEmojis runeLit doc).get? 0x1F6FC = some ⟨256, 2, 2⟩ := by
  simp [revEmojis, revEmojisElements, List.foldl_append, GoMap.get?_set,
    padding, paddingLastV1, paddingLastV2, ev1, ev2, evAll, padFill, padLast]

theorem getElem?_ne_of_not_mem_drop {L : List String} {s : String} {i : Nat}
    (h : s ∉ L.drop (i + 1)) : ∀ k, i < k → L[k]? ≠ some s := by
  intro k hk hks
  apply h
  apply List.mem_iff_getElem?.2
  refine ⟨k - (i + 1), ?_⟩
  rw [List.getElem?_drop]
  have : i + 1 + (k - (i + 1)) = k := by omega
  rw [this]
  exact hks

/-! ## The claims -/

/-- C2, as stated, fails: the symbol `1f004` sits at index 0 of the first list
and at index 1 of the second, and the construction still succeeds, because the
first list repeats it at index 1. -/
theorem mainRevMap_accepts_mismatch_of_repeated :
    (["1f004", "1f004"] : List String)[0]? = some "1f004" ∧
    (["1f0cf", "1f004"] : List String)[1]? = some "1f004" ∧
    (0 : Nat) ≠ 1 ∧
    mainRevMap ["1f004", "1f004"] ["1f0cf", "1f004"] =
      .ok [("1f004", ⟨1, 3⟩), ("1f0cf", ⟨0, 2⟩)] :=
  ⟨rfl, rfl, by decide, rfl⟩

/-- C2, amended: if a symbol occurs at index `i` of `v1Lines` and not again
after `i`, and at an index `j ≠ i` of `v2Lines`, then the reverse-map
construction of `main` panics with an "Ordinal mismatch" message. -/
theorem mainRevMap_panics_on_ordinal_mismatch (v1Lines v2Lines : List String)
    (s : String) (i j : Nat) (hi : v1Lines[i]? = some s)
    (hlast : s ∉ v1Lines.drop (i + 1)) (hj : v2Lines[j]? = some s)
    (hij : i ≠ j) :
    ∃ n r, mainRevMap v1Lines v2Lines = .error (ordinalMismatch n r) := by
  cases h : mainRevMap v1Lines v2Lines with
  | error e =>
    obtain ⟨n, r, hn⟩ := loopV2_error _ _ _ _ h
    exact ⟨n, r, by rw [hn]⟩
  | ok m =>
    exfalso
    obtain ⟨_, hB, hC, _⟩ := loopV2_spec _ _ _ _ h
    have h1 := loopV1_get?_last v1Lines 0 [] i s hi
      (getElem?_ne_of_not_mem_drop hlast)
    obtain ⟨a, ha, hao⟩ := hB s _ h1
    obtain ⟨b, hb, hbo, _⟩ := hC j s hj
    rw [ha] at hb
    cases hb
    simp only at hao
    omega

theorem mainRevMap_panics_on_ordinal_mismatch_witness :
    (["1f004", "1f0cf"] : List String)[0]? = some "1f004" ∧
    "1f004" ∉ (["1f004", "1f0cf"] : List String).drop (0 + 1) ∧
    (["1f0cf", "1f004"] : List String)[1]? = some "1f004" ∧
    (0 : Nat) ≠ 1 ∧
    ∃ n r, mainRevMap ["1f004", "1f0cf"] ["1f0cf", "1f004"] =
      .error (ordinalMismatch n r) :=
  ⟨rfl, by decide, rfl, by decide,
    mainRevMap_panics_on_ordinal_mismatch ["1f004", "1f0cf"] ["1f0cf", "1f004"]
      "1f004" 0 1 rfl (by decide) rfl (by decide)⟩

/-- C3: after a successful construction, the stored version of a symbol is 1
exactly when it is in `v1Lines` only, 2 exactly when it is in `v2Lines` only,
3 exactly when it is in both, and no other version is stored. -/
theorem mainRevMap_version (v1Lines v2Lines : List String)
    (revMap : GoMap String RuneInfo)
    (h : mainRevMap v1Lines v2Lines = .ok revMap) :
    ∀ s : String,
      ((∃ info, revMap.get? s = some info ∧ info.Version = 1) ↔
        s ∈ v1Lines ∧ s ∉ v2Lines) ∧
      ((∃ info, revMap.get? s = some info ∧ info.Version = 2) ↔
        s ∈ v2Lines ∧ s ∉ v1Lines) ∧
      ((∃ info, revMap.get? s = some info ∧ info.Version = 3) ↔
        s ∈ v1Lines ∧ s ∈ v2Lines) ∧
      (∀ info, revMap.get? s = some info →
        info.Version = 1 ∨ info.Version = 2 ∨ info.Version = 3) := by
  intro s
  obtain ⟨h0, h1, h2, h3⟩ := mainRevMap_get? h s
  by_cases a : s ∈ v1Lines <;> by_cases b : s ∈ v2Lines
  · obtain ⟨o, ho⟩ := h3 a b
    simp [a, b, ho]
  · obtain ⟨o, ho⟩ := h1 a b
    simp [a, b, ho]
  · obtain ⟨o, ho⟩ := h2 a b
    simp [a, b, ho]
  · simp [a, b, h0 a b]

theorem mainRevMap_version_witness :
    mainRevMap ["1f004", "1f0cf"] ["1f004", "1f600"] =
      .ok [("1f004", ⟨0, 3⟩), ("1f0cf", ⟨1, 1⟩), ("1f600", ⟨1, 2⟩)] ∧
    ∀ s : String,
      ((∃ info, GoMap.get? [("1f004", (⟨0, 3⟩ : RuneInfo)), ("1f0cf", ⟨1, 1⟩),
          ("1f600", ⟨1, 2⟩)] s = some info ∧ info.Version = 1) ↔
        s ∈ ["1f004", "1f0cf"] ∧ s ∉ ["1f004", "1f600"]) ∧
      ((∃ info, GoMap.get? [("1f004", (⟨0, 3⟩ : RuneInfo)), ("1f0cf", ⟨1, 1⟩),
          ("1f600", ⟨1, 2⟩)] s = some info ∧ info.Version = 2) ↔
        s ∈ ["1f004", "1f600"] ∧ s ∉ ["1f004", "1f0cf"]) ∧
      ((∃ info, GoMap.get? [("1f004", (⟨0, 3⟩ : RuneInfo)), ("1f0cf", ⟨1, 1⟩),
          ("1f600", ⟨1, 2⟩)] s = some info ∧ info.Version = 3) ↔
        s ∈ ["1f004", "1f0cf"] ∧ s ∈ ["1f004", "1f600"]) ∧
      (∀ info, GoMap.get? [("1f004", (⟨0, 3⟩ : RuneInfo)), ("1f0cf", ⟨1, 1⟩),
          ("1f600", ⟨1, 2⟩)] s = some info →
        info.Version = 1 ∨ info.Version = 2 ∨ info.Version = 3) :=
  ⟨rfl, mainRevMap_version ["1f004", "1f0cf"] ["1f004", "1f600"] _ rfl⟩

/-- C4, as stated, fails: the construction succeeds on a first list that
repeats `1f004`, and the entry of `1f004`, which is at index 0 of that list,
holds the ordinal 1. -/
theorem mainRevMap_ordinal_of_repeated :
    mainRevMap ["1f004", "1f004"] ["1f0cf"] =
      .ok [("1f004", ⟨1, 1⟩), ("1f0cf", ⟨0, 2⟩)] ∧
    (["1f004", "1f004"] : List String)[0]? = some "1f004" ∧
    GoMap.get? [("1f004", (⟨1, 1⟩ : RuneInfo)), ("1f0cf", ⟨0, 2⟩)] "1f004" =
      some ⟨1, 1⟩ ∧
    (⟨1, 1⟩ : RuneInfo).Ordinal ≠ 0 :=
  ⟨rfl, rfl, rfl, by decide⟩

/-- C4, amended: after a successful construction, the entry of `v2Lines[i]`
holds the ordinal `i` for every index `i` of `v2Lines`, and the entry of
`v1Lines[i]` holds the ordinal `i` for every index `i` after which `v1Lines`
does not repeat that symbol. -/
theorem mainRevMap_ordinal (v1Lines v2Lines : List String)
    (revMap : GoMap String RuneInfo)
    (h : mainRevMap v1Lines v2Lines = .ok revMap) :
    (∀ (i : Nat) (s : String), v2Lines[i]? = some s →
      ∃ info, revMap.get? s = some info ∧ info.Ordinal = i) ∧
    (∀ (i : Nat) (s : String), v1Lines[i]? = some s →
        s ∉ v1Lines.drop (i + 1) →
      ∃ info, revMap.get? s = some info ∧ info.Ordinal = i) := by
  obtain ⟨_, hB, hC, _⟩ := loopV2_spec _ _ _ _ h
  constructor
  · intro i s hi
    obtain ⟨a, ha, hao, _⟩ := hC i s hi
    exact ⟨a, ha, by omega⟩
  · intro i s hi hlast
    have h1 := loopV1_get?_last v1Lines 0 [] i s hi
      (getElem?_ne_of_not_mem_drop hlast)
    obtain ⟨a, ha, hao⟩ := hB s _ h1
    refine ⟨a, ha, ?_⟩
    simp only at hao
    omega

theorem mainRevMap_ordinal_witness :
    mainRevMap ["1f004", "1f0cf"] ["1f004", "1f600"] =
      .ok [("1f004", ⟨0, 3⟩), ("1f0cf", ⟨1, 1⟩), ("1f600", ⟨1, 2⟩)] ∧
    (∀ (i : Nat) (s : String), (["1f004", "1f600"] : List String)[i]? = some s →
      ∃ info, GoMap.get? [("1f004", (⟨0, 3⟩ : RuneInfo)), ("1f0cf", ⟨1, 1⟩),
        ("1f600", ⟨1, 2⟩)] s = some info ∧ info.Ordinal = i) ∧
    (∀ (i : Nat) (s : String), (["1f004", "1f0cf"] : List String)[i]? = some s →
      s ∉ (["1f004", "1f0cf"] : List String).drop (i + 1) →
      ∃ info, GoMap.get? [("1f004", (⟨0, 3⟩ : RuneInfo)), ("1f0cf", ⟨1, 1⟩),
        ("1f600", ⟨1, 2⟩)] s = some info ∧ info.Ordinal = i) :=
  ⟨rfl, mainRevMap_ordinal ["1f004", "1f0cf"] ["1f004", "1f600"] _ rfl⟩

/-- C5: after a successful run of `main`, the map `revEmojis` has an entry for
the code point of every line of `v1Lines` and of `v2Lines`, for the fill
symbol, and for each of the four symbols of `paddingLastV1` and of
`paddingLastV2`; and every key of the data part is a line of one of the lists. -/
theorem revEmojis_coverage (runeLit : String → Nat)
    (envUser timestamp : String) (v1Lines v2Lines : List String)
    (doc : document) (h : main envUser timestamp v1Lines v2Lines = .ok doc) :
    (∀ s, s ∈ v1Lines →
      ∃ info, (revEmojis runeLit doc).get? (runeLit s) = some info) ∧
    (∀ s, s ∈ v2Lines →
      ∃ info, (revEmojis runeLit doc).get? (runeLit s) = some info) ∧
    (∃ info, (revEmojis runeLit doc).get? padding = some info) ∧
    (∀ k : Fin 4,
      ∃ info, (revEmojis runeLit doc).get? (paddingLastV1 k) = some info) ∧
    (∀ k : Fin 4,
      ∃ info, (revEmojis runeLit doc).get? (paddingLastV2 k) = some info) ∧
    (∀ s, s ∈ doc.RevMap.keys → s ∈ v1Lines ∨ s ∈ v2Lines) := by
  have hm := main_ok h
  have hdata : ∀ s, (s ∈ v1Lines ∨ s ∈ v2Lines) →
      ∃ info, (revEmojis runeLit doc).get? (runeLit s) = some info := by
    intro s hs
    have hk : s ∈ doc.RevMap.keys := (mainRevMap_mem_keys hm s).2 hs
    obtain ⟨e, he, hes⟩ := List.mem_map.1 hk
    apply (GoMap.mem_keys_iff _ _).1
    unfold revEmojis
    rw [mem_keys_foldl_set]
    right
    refine ⟨(runeLit e.1, ⟨e.2.Ordinal, e.2.Version, padNone⟩), ?_, by rw [hes]⟩
    unfold revEmojisElements
    apply List.mem_append_left
    apply List.mem_map.2
    exact ⟨e, (List.mem_insertionSort _).2 he, rfl⟩
  obtain ⟨r0, r1, r2, r3, r4, r5, r6⟩ := revEmojis_get?_reserved runeLit doc
  refine ⟨fun s hs => hdata s (Or.inl hs), fun s hs => hdata s (Or.inr hs),
    ⟨_, r0⟩, ?_, ?_, fun s hs => (mainRevMap_mem_keys hm s).1 hs⟩
  · intro k
    fin_cases k
    · exact ⟨_, r1⟩
    · exact ⟨_, r2⟩
    · exact ⟨_, r3⟩
    · exact ⟨_, r4⟩
  · intro k
    fin_cases k
    · exact ⟨_, r5⟩
    · exact ⟨_, r6⟩
    · exact ⟨_, r3⟩
    · exact ⟨_, r4⟩

theorem revEmojis_coverage_witness :
    main "" "2024-01-01T00:00:00Z" ["1f004", "1f0cf"] ["1f004", "1f600"] =
      .ok ⟨"robots", "2024-01-01T00:00:00Z", ["1f004", "1f0cf"],
        ["1f004", "1f600"],
        [("1f004", ⟨0, 3⟩), ("1f0cf", ⟨1, 1⟩), ("1f600", ⟨1, 2⟩)]⟩ ∧
    (revEmojis hexRune ⟨"robots", "2024-01-01T00:00:00Z", ["1f004", "1f0cf"],
        ["1f004", "1f600"],
        [("1f004", ⟨0, 3⟩), ("1f0cf", ⟨1, 1⟩), ("1f600", ⟨1, 2⟩)]⟩).get?
      (hexRune "1f0cf") = some ⟨1, 1, -1⟩ ∧
    ∀ k : Fin 4, ∃ info,
      (revEmojis hexRune ⟨"robots", "2024-01-01T00:00:00Z", ["1f004", "1f0cf"],
        ["1f004", "1f600"],
        [("1f004", ⟨0, 3⟩), ("1f0cf", ⟨1, 1⟩), ("1f600", ⟨1, 2⟩)]⟩).get?
      (paddingLastV2 k) = some info :=
  ⟨rfl, by decide,
    (revEmojis_coverage hexRune "" "2024-01-01T00:00:00Z"
      ["1f004", "1f0cf"] ["1f004", "1f600"] _ rfl).2.2.2.2.1⟩

/-- C6, as stated, fails: at subindex 2 the marker of version 1 and the marker
of version 2 are the same symbol. -/
theorem paddingLast_shared_at_two : paddingLastV1 2 = paddingLastV2 2 := by
  decide

/-- C6, amended: the marker of version 1 differs from the marker of version 2
at the subindices 0 and 1, and the two versions share their marker at the
subindices 2 and 3. -/
theorem paddingLast_distinct_iff :
    ∀ k : Fin 4, (paddingLastV1 k ≠ paddingLastV2 k ↔ k.val < 2) := by
  decide

/-- C7: when neither list repeats a symbol and every symbol of both lists
sits at the same index in both, the construction completes without a panic and
the map has exactly one entry for each distinct symbol of the two lists. -/
theorem mainRevMap_ok_of_consistent (v1Lines v2Lines : List String)
    (h1 : v1Lines.Nodup) (h2 : v2Lines.Nodup)
    (hsame : ∀ (i j : Nat) (s : String),
      v1Lines[i]? = some s → v2Lines[j]? = some s → i = j) :
    ∃ revMap, mainRevMap v1Lines v2Lines = .ok revMap ∧
      revMap.keys.Nodup ∧
      (∀ s, s ∈ revMap.keys ↔ s ∈ v1Lines ∨ s ∈ v2Lines) ∧
      revMap.length = (v1Lines ++ v2Lines).dedup.length := by
  have hok : ∃ m, mainRevMap v1Lines v2Lines = .ok m := by
    apply loopV2_ok _ _ _ h2
    intro j s info hj hs
    by_cases hmem : s ∈ v1Lines
    · obtain ⟨i, hi⟩ := List.mem_iff_getElem?.1 hmem
      have hlast : ∀ k, i < k → v1Lines[k]? ≠ some s := by
        intro k hk hks
        have hlt : i < v1Lines.length := by
          by_contra hge
          rw [List.getElem?_eq_none (by omega)] at hi
          cases hi
        have := List.getElem?_inj hlt h1 (hi.trans hks.symm)
        omega
      rw [loopV1_get?_last v1Lines 0 [] i s hi hlast] at hs
      cases hs
      have := hsame i j s hi hj
      simp only
      omega
    · rw [loopV1_get?_of_not_mem _ _ _ _ hmem] at hs
      cases hs
  obtain ⟨m, hm⟩ := hok
  have hnd := mainRevMap_nodup_keys hm
  have hkeys := mainRevMap_mem_keys hm
  refine ⟨m, hm, hnd, hkeys, ?_⟩
  have hperm : m.keys.Perm (v1Lines ++ v2Lines).dedup := by
    rw [List.perm_ext_iff_of_nodup hnd (List.nodup_dedup _)]
    intro s
    rw [hkeys s, List.mem_dedup, List.mem_append]
  have := hperm.length_eq
  simpa [GoMap.keys] using this

theorem mainRevMap_ok_of_consistent_witness :
    (["1f004", "1f0cf"] : List String).Nodup ∧
    (["1f004", "1f600"] : List String).Nodup ∧
    ∃ revMap, mainRevMap ["1f004", "1f0cf"] ["1f004", "1f600"] = .ok revMap ∧
      revMap.keys.Nodup ∧
      (∀ s, s ∈ revMap.keys ↔ s ∈ ["1f004", "1f0cf"] ∨ s ∈ ["1f004", "1f600"]) ∧
      revMap.length = (["1f004", "1f0cf"] ++ ["1f004", "1f600"]).dedup.length :=
  ⟨by decide, by decide,
    mainRevMap_ok_of_consistent ["1f004", "1f0cf"] ["1f004", "1f600"]
      (by decide) (by decide) (by
        intro i j s hi hj
        rcases i with _ | _ | i <;> rcases j with _ | _ | j <;> simp_all <;>
          (subst hi; revert hj; decide))⟩

/-- C8: in `revEmojis` the fill symbol is annotated `evAll` and `padFill`, and
every marker symbol is annotated `padLast` and carries `ev1` exactly when it is
in `paddingLastV1` only, `ev2` exactly when it is in `paddingLastV2` only, and
`evAll` exactly when it is in both tables. -/
theorem revEmojis_reserved_annotations (runeLit : String → Nat) (doc : document) :
    (revEmojis runeLit doc).get? padding = some ⟨0, evAll, padFill⟩ ∧
    (∀ k : Fin 4, ∃ info,
      (revEmojis runeLit doc).get? (paddingLastV1 k) = some info ∧
      info.padding = padLast ∧
      (info.version = ev1 ↔ (∃ a, paddingLastV1 a = paddingLastV1 k) ∧
        ¬ ∃ b, paddingLastV2 b = paddingLastV1 k) ∧
      (info.version = ev2 ↔ (∃ b, paddingLastV2 b = paddingLastV1 k) ∧
        ¬ ∃ a, paddingLastV1 a = paddingLastV1 k) ∧
      (info.version = evAll ↔ (∃ a, paddingLastV1 a = paddingLastV1 k) ∧
        ∃ b, paddingLastV2 b = paddingLastV1 k)) ∧
    (∀ k : Fin 4, ∃ info,
      (revEmojis runeLit doc).get? (paddingLastV2 k) = some info ∧
      info.padding = padLast ∧
      (info.version = ev1 ↔ (∃ a, paddingLastV1 a = paddingLastV2 k) ∧
        ¬ ∃ b, paddingLastV2 b = paddingLastV2 k) ∧
      (info.version = ev2 ↔ (∃ b, paddingLastV2 b = paddingLastV2 k) ∧
        ¬ ∃ a, paddingLastV1 a = paddingLastV2 k) ∧
      (info.version = evAll ↔ (∃ a, paddingLastV1 a = paddingLastV2 k) ∧
        ∃ b, paddingLastV2 b = paddingLastV2 k)) := by
  obtain ⟨r0, r1, r2, r3, r4, r5, r6⟩ := revEmojis_get?_reserved runeLit doc
  refine ⟨r0, ?_, ?_⟩
  · intro k
    fin_cases k
    · exact ⟨_, r1, by decide, by decide, by decide, by decide⟩
    · exact ⟨_, r2, by decide, by decide, by decide, by decide⟩
    · exact ⟨_, r3, by decide, by decide, by decide, by decide⟩
    · exact ⟨_, r4, by decide, by decide, by decide, by decide⟩
  · intro k
    fin_cases k
    · exact ⟨_, r5, by decide, by decide, by decide, by decide⟩
    · exact ⟨_, r6, by decide, by decide, by decide, by decide⟩
    · exact ⟨_, r3, by decide, by decide, by decide, by decide⟩
    · exact ⟨_, r4, by decide, by decide, by decide, by decide⟩

/-- C9: the entry of the marker of subindex `k`, in either version, holds the
ordinal `k * 256 = k <<< 8`, which is below 1024 and gives back `k` when shifted
right by 8; the markers of one version are pairwise different and none of them
is the fill symbol. -/
theorem revEmojis_marker_ordinal (runeLit : String → Nat) (doc : document) :
    (∀ k : Fin 4, ∃ info,
      (revEmojis runeLit doc).get? (paddingLastV1 k) = some info ∧
      info.ordinal = k.val * 256 ∧ info.ordinal = k.val <<< 8 ∧
      info.ordinal < 1024 ∧ info.ordinal >>> 8 = k.val) ∧
    (∀ k : Fin 4, ∃ info,
      (revEmojis runeLit doc).get? (paddingLastV2 k) = some info ∧
      info.ordinal = k.val * 256 ∧ info.ordinal = k.val <<< 8 ∧
      info.ordinal < 1024 ∧ info.ordinal >>> 8 = k.val) ∧
    (∀ a b : Fin 4, paddingLastV1 a = paddingLastV1 b → a = b) ∧
    (∀ a b : Fin 4, paddingLastV2 a = paddingLastV2 b → a = b) ∧
    (∀ k : Fin 4, paddingLastV1 k ≠ padding ∧ paddingLastV2 k ≠ padding) := by
  obtain ⟨_, r1, r2, r3, r4, r5, r6⟩ := revEmojis_get?_reserved runeLit doc
  refine ⟨?_, ?_, by decide, by decide, by decide⟩
  · intro k
    fin_cases k
    · exact ⟨_, r1, by decide, by decide, by decide, by decide⟩
    · exact ⟨_, r2, by decide, by decide, by decide, by decide⟩
    · exact ⟨_, r3, by decide, by decide, by decide, by decide⟩
    · exact ⟨_, r4, by decide, by decide, by decide, by decide⟩
  · intro k
    fin_cases k
    · exact ⟨_, r5, by decide, by decide, by decide, by decide⟩
    · exact ⟨_, r6, by decide, by decide, by decide, by decide⟩
    · exact ⟨_, r3, by decide, by decide, by decide, by decide⟩
    · exact ⟨_, r4, by decide, by decide, by decide, by decide⟩

/-- C10: if `v2Lines` holds one symbol at two different indices, the
construction panics with an "Ordinal mismatch" message, whatever `v1Lines` is. -/
theorem mainRevMap_panics_on_repeated_v2 (v1Lines v2Lines : List String)
    (s : String) (i j : Nat) (hi : v2Lines[i]? = some s)
    (hj : v2Lines[j]? = some s) (hij : i ≠ j) :
    ∃ n r, mainRevMap v1Lines v2Lines = .error (ordinalMismatch n r) := by
  cases h : mainRevMap v1Lines v2Lines with
  | error e =>
    obtain ⟨n, r, hn⟩ := loopV2_error _ _ _ _ h
    exact ⟨n, r, by rw [hn]⟩
  | ok m =>
    exfalso
    obtain ⟨_, _, _, hD⟩ := loopV2_spec _ _ _ _ h
    have hlt : i < v2Lines.length := by
      by_contra hge
      rw [List.getElem?_eq_none (by omega)] at hi
      cases hi
    exact hij (List.getElem?_inj hlt hD (hi.trans hj.symm))

theorem mainRevMap_panics_on_repeated_v2_witness :
    (["1f0cf", "1f0cf"] : List String)[0]? = some "1f0cf" ∧
    (["1f0cf", "1f0cf"] : List String)[1]? = some "1f0cf" ∧
    (0 : Nat) ≠ 1 ∧
    ∃ n r, mainRevMap ["1f004"] ["1f0cf", "1f0cf"] =
      .error (ordinalMismatch n r) :=
  ⟨rfl, rfl, by decide,
    mainRevMap_panics_on_repeated_v2 ["1f004"] ["1f0cf", "1f0cf"] "1f0cf" 0 1
      rfl rfl (by decide)⟩

end Ecoji
